import Mathlib

/-!
Verification of the Internship-Allocator repository.

This file gives a shallow embedding of the repository's Python sources
(`recommender.py`, `resume_parser.py`, `utils.py`) and proves or refutes the
frozen claims about them.

Modelling conventions:
* Python strings are `List Char` (`Str` below); `str.lower()` is modelled at
  the ASCII level (`pyLower`), which is the relevant regime for every claim.
* Python floats are idealized as real numbers `ℝ` (for the scoring pipeline,
  where `np.linalg.norm` takes square roots) or rationals `ℚ` (for
  `jaccard_score`, whose arithmetic is exact at the values the claims touch).
* Third-party calls (the sentence-transformer encoder, the Groq LLM client,
  `PyPDF2`, `pandas.read_csv`/`to_csv`) are abstracted as function parameters;
  everything written in the repository itself is translated concretely.
* Raised exceptions are modelled with `Except`.
-/

namespace InternshipAllocator

/-- Python strings, modelled as lists of characters. -/
abbrev Str := List Char

/-! ## `normalize_text` (recommender.py lines 10-16)

```python
def normalize_text(s):
    if not isinstance(s, str):
        return ""
    s = s.lower()
    s = re.sub(r"[^a-z0-9, ]+", " ", s)
    s = re.sub(r"\s+", " ", s).strip()
    return s
```
-/

/-- ASCII model of Python `str.lower()`: uppercase A-Z is shifted to a-z,
every other character is kept. -/
def pyLower (c : Char) : Char :=
  if 65 ≤ c.toNat ∧ c.toNat ≤ 90 then Char.ofNat (c.toNat + 32) else c

/-- The character class `[a-z0-9, ]` of the first regex in `normalize_text`:
lowercase letters, digits, comma, space. -/
def allowedChar (c : Char) : Bool :=
  decide ((97 ≤ c.toNat ∧ c.toNat ≤ 122) ∨ (48 ≤ c.toNat ∧ c.toNat ≤ 57) ∨
    c.toNat = 44 ∨ c.toNat = 32)

/-- Python's regex class `\s` (the ASCII portion): space, tab, newline,
vertical tab, form feed, carriage return. -/
def pyWs (c : Char) : Bool :=
  c = ' ' || c = '\t' || c = '\n' || c.toNat = 11 || c.toNat = 12 || c = '\r'

/-- `re.sub(r"[^a-z0-9, ]+", " ", s)`: every maximal run of characters outside
`[a-z0-9, ]` is replaced by a single space (the space is emitted at the end of
the run, which yields the same string). -/
def subStep : Str → Str
  | [] => []
  | [c] => if allowedChar c then [c] else [' ']
  | c :: d :: cs =>
    if allowedChar c then c :: subStep (d :: cs)
    else if allowedChar d then ' ' :: subStep (d :: cs)
    else subStep (d :: cs)

/-- `re.sub(r"\s+", " ", s)`: every maximal run of whitespace is replaced by a
single space (emitted at the end of the run). -/
def collapseStep : Str → Str
  | [] => []
  | [c] => if pyWs c then [' '] else [c]
  | c :: d :: cs =>
    if pyWs c then (if pyWs d then collapseStep (d :: cs) else ' ' :: collapseStep (d :: cs))
    else c :: collapseStep (d :: cs)

/-- Python `str.strip()`: drop whitespace from both ends. -/
def stripStep (l : Str) : Str :=
  ((l.dropWhile pyWs).reverse.dropWhile pyWs).reverse

/-- `normalize_text` on an actual string (the `isinstance(s, str)` branch). -/
def normalize_text (s : Str) : Str :=
  stripStep (collapseStep (subStep (s.map pyLower)))

/-- `normalize_text` including the non-string case: a non-string argument
(`none`) yields the empty string. -/
def normalize_text_py : Option Str → Str
  | none => []
  | some s => normalize_text s

/-! ## `parse_skills` (recommender.py lines 18-22)

```python
def parse_skills(text):
    text = normalize_text(text)
    parts = re.split(r"[,;\n]| and ", text)
    skills = [p.strip() for p in parts if p.strip()]
    return list(dict.fromkeys(skills))
```
-/

/-- One splitting character of the regex alternation `[,;\n]`. -/
def splitChar (c : Char) : Bool := c = ',' || c = ';' || c = '\n'

/-- `re.split(r"[,;\n]| and ", text)`: scan left to right; a splitter is
either one of `,` `;` newline, or the five-character word `" and "` (tried in
that order at each position, as in the regex alternation). -/
def splitSkills : Str → List Str
  | [] => [[]]
  | ' ' :: 'a' :: 'n' :: 'd' :: ' ' :: rest => [] :: splitSkills rest
  | c :: cs =>
    if splitChar c then [] :: splitSkills cs
    else
      match splitSkills cs with
      | [] => [[c]]
      | p :: ps => (c :: p) :: ps

/-- Worker for order-preserving deduplication: `seen` collects the keys met so
far. -/
def dedupGo (seen : List Str) : List Str → List Str
  | [] => []
  | x :: xs => if x ∈ seen then dedupGo seen xs else x :: dedupGo (x :: seen) xs

/-- Order-preserving deduplication, Python `list(dict.fromkeys(...))`. -/
def dedupKeepFirst (l : List Str) : List Str :=
  dedupGo [] l

/-- `parse_skills`. -/
def parse_skills (text : Str) : List Str :=
  let t := normalize_text text
  let parts := splitSkills t
  let skills := (parts.map stripStep).filter (fun p => p ≠ [])
  dedupKeepFirst skills

/-! ## `jaccard_score` (recommender.py lines 24-29)

```python
def jaccard_score(list1, list2):
    s1 = set([normalize_text(x) for x in list1 if x])
    s2 = set([normalize_text(x) for x in list2 if x])
    if not s1 and not s2:
        return 0.0
    return len(s1 & s2) / len(s1 | s2) if (s1 | s2) else 0.0
```
-/

/-- The set `set([normalize_text(x) for x in l if x])`: truthiness of a Python
string is non-emptiness. -/
def skillSet (l : List Str) : Finset Str :=
  ((l.filter (fun x => x ≠ [])).map normalize_text).toFinset

/-- `jaccard_score`, with the exact float values as rationals. -/
def jaccard_score (list1 list2 : List Str) : ℚ :=
  let s1 := skillSet list1
  let s2 := skillSet list2
  if s1 = ∅ ∧ s2 = ∅ then 0
  else if s1 ∪ s2 ≠ ∅ then ((s1 ∩ s2).card : ℚ) / ((s1 ∪ s2).card : ℚ)
  else 0

/-! ## The C5 comparison functions -/

/-- Character-wise replacement of disallowed characters by a space (what the
amended C5 says `normalize_text` does, up to whitespace collapsing). -/
def replChar (c : Char) : Char := if allowedChar c then c else ' '

/-- Following the amended claim C5 word for word: lowercase, replace every
disallowed character by a space, collapse whitespace runs, trim. -/
def normalizeSpecReplacing (s : Str) : Str :=
  stripStep (collapseStep ((s.map pyLower).map replChar))

/-- Following the original claim C5 word for word: lowercase, DELETE every
disallowed character, collapse whitespace runs, trim. -/
def normalizeSpecDeleting (s : Str) : Str :=
  stripStep (collapseStep ((s.map pyLower).filter allowedChar))

/-! ## `_normalize_embeddings` (recommender.py lines 31-34)

```python
def _normalize_embeddings(embs):
    norms = np.linalg.norm(embs, axis=1, keepdims=True)
    norms[norms == 0] = 1.0
    return embs / norms
```
-/

/-- Row norm `np.linalg.norm(., axis=1)`: the L2 norm of one row. -/
noncomputable def pyNorm (v : List ℝ) : ℝ := Real.sqrt ((v.map (fun x => x * x)).sum)

/-- `_normalize_embeddings`: divide each row by its norm, a zero norm being
replaced by 1.0 beforehand. -/
noncomputable def _normalize_embeddings (embs : List (List ℝ)) : List (List ℝ) :=
  embs.map (fun v =>
    let n := pyNorm v
    let d := if n = 0 then (1 : ℝ) else n
    v.map (fun x => x / d))

/-! ## The `Recommender` class (recommender.py lines 36-84)

The sentence-transformer model is a third-party component; it is abstracted as
an arbitrary function `Str → List ℝ` (`model.encode` on a list of texts is the
map of that function). The pandas DataFrame of companies becomes a list of
entries carrying the original columns plus the two derived columns the
constructor adds.
-/

/-- A catalog row as supplied to the constructor; `none` models a NaN cell,
which `fillna("")` turns into the empty string. -/
structure RawEntry where
  CompanyName : Option Str
  PostedRole : Option Str
  Industry : Option Str
  Sector : Option Str
  Location : Option Str
  SkillsRequired : Option Str
  Stipend : Option Str

/-- A catalog row after `__init__`: original columns (NaN filled with ""),
plus the derived `combined_text` and `IsGovernment` columns. -/
structure Entry where
  CompanyName : Str
  PostedRole : Str
  Industry : Str
  Sector : Str
  Location : Str
  SkillsRequired : Str
  Stipend : Str
  combined_text : Str
  IsGovernment : Bool
deriving DecidableEq

/-- `fillna("")` on one cell. -/
def fillna (o : Option Str) : Str := o.getD []

/-- The constructor's government keyword list. -/
def gov_keywords : List Str :=
  [("ngo".toList), ("gov".toList), ("government".toList), ("public sector".toList),
    ("psu".toList), ("co-op".toList), ("cooperative".toList), ("council".toList),
    ("trust".toList), ("rural development".toList), ("community development".toList)]

/-- Python's substring test `a in b` on strings. -/
def pyIn (needle hay : Str) : Bool := decide (needle <:+: hay)

/-- `detect_gov(row)`: any keyword occurring in the lowercased
`f"{CompanyName} {Sector}"`. -/
def detect_gov (companyName sector : Str) : Bool :=
  gov_keywords.any (fun k => pyIn k ((companyName ++ [' '] ++ sector).map pyLower))

/-- One row of `self.companies` after the constructor's column operations. -/
def mkEntry (r : RawEntry) : Entry :=
  { CompanyName := fillna r.CompanyName
    PostedRole := fillna r.PostedRole
    Industry := fillna r.Industry
    Sector := fillna r.Sector
    Location := fillna r.Location
    SkillsRequired := fillna r.SkillsRequired
    Stipend := fillna r.Stipend
    combined_text :=
      fillna r.SkillsRequired ++ [' '] ++ fillna r.PostedRole ++ [' '] ++ fillna r.Industry
    IsGovernment := detect_gov (fillna r.CompanyName) (fillna r.Sector) }

/-- The `weights` dictionary of `recommend`. -/
structure Weights where
  embed : ℝ
  jaccard : ℝ
  location : ℝ
  gov : ℝ

/-- The default weights `{'embed':0.7, 'jaccard':0.2, 'location':0.05, 'gov':0.05}`. -/
noncomputable def defaultWeights : Weights :=
  { embed := 0.7, jaccard := 0.2, location := 0.05, gov := 0.05 }

/-- The `Recommender` state after `__init__`: the companies table, the loaded
encoder, and the precomputed normalized catalog embeddings. -/
structure Recommender where
  companies : List Entry
  model : Str → List ℝ
  embeddings : List (List ℝ)

/-- `Recommender.__init__(companies_df)` with the abstract encoder `encode`. -/
noncomputable def mkRecommender (encode : Str → List ℝ) (raw : List RawEntry) : Recommender :=
  let companies := raw.map mkEntry
  let texts := companies.map (fun c => normalize_text c.combined_text)
  { companies := companies
    model := encode
    embeddings := _normalize_embeddings (texts.map encode) }

/-- `np.dot` of two vectors. -/
noncomputable def npDot (a b : List ℝ) : ℝ := (List.zipWith (fun x y => x * y) a b).sum

/-- The `sim` vector of `recommend`: encode and L2-normalize the candidate
text, then dot it against every stored row. -/
noncomputable def simVec (r : Recommender) (candidate_text : Str) : List ℝ :=
  let cand_emb := (_normalize_embeddings [r.model (normalize_text candidate_text)]).headI
  r.embeddings.map (fun e => npDot e cand_emb)

/-- The `jaccard` vector of `recommend`. -/
noncomputable def jaccardVec (r : Recommender) (candidate_skills : Str) : List ℝ :=
  r.companies.map (fun c =>
    ((jaccard_score (parse_skills candidate_skills) (parse_skills c.SkillsRequired) : ℚ) : ℝ))

/-- The `location_bonus` vector of `recommend` (lines 67-71): the Python
truthiness test `if candidate_location_pref:` is `pref = some p` with `p`
non-empty; inside the row lambda, `1.0 if loc and loc in normalize_text(r)`. -/
noncomputable def locationBonusVec (pref : Option Str) (companies : List Entry) : List ℝ :=
  match pref with
  | none => List.replicate companies.length 0
  | some p =>
    if p ≠ [] then
      companies.map (fun c =>
        if normalize_text p ≠ [] ∧ pyIn (normalize_text p) (normalize_text c.Location)
        then (1 : ℝ) else 0)
    else List.replicate companies.length 0

/-- The `gov_bonus` vector of `recommend` (lines 73-76). -/
noncomputable def govBonusVec (is_rural : Bool) (companies : List Entry) : List ℝ :=
  if is_rural then companies.map (fun c => if c.IsGovernment then (1 : ℝ) else 0)
  else List.replicate companies.length 0

/-- The elementwise weighted sum of line 78. -/
noncomputable def weightedSum (w : Weights) : List ℝ → List ℝ → List ℝ → List ℝ → List ℝ
  | a :: as, b :: bs, c :: cs, d :: ds =>
    (w.embed * a + w.jaccard * b + w.location * c + w.gov * d) :: weightedSum w as bs cs ds
  | _, _, _, _ => []

/-- The `final_score` vector of one `recommend` call. -/
noncomputable def finalScores (r : Recommender) (candidate_text candidate_skills : Str)
    (pref : Option Str) (is_rural : Bool) (w : Weights) : List ℝ :=
  weightedSum w (simVec r candidate_text) (jaccardVec r candidate_skills)
    (locationBonusVec pref r.companies) (govBonusVec is_rural r.companies)

/-- `res = self.companies.copy(); res['score'] = final_score`: the copied table
with its new score column. -/
noncomputable def scoredTable (r : Recommender) (candidate_text candidate_skills : Str)
    (pref : Option Str) (is_rural : Bool) (w : Weights) : List (Entry × ℝ) :=
  r.companies.zip (finalScores r candidate_text candidate_skills pref is_rural w)

/-- Stable descending insertion: the new row goes after every existing row
whose score is at least as large. -/
noncomputable def insertScored (a : Entry × ℝ) : List (Entry × ℝ) → List (Entry × ℝ)
  | [] => [a]
  | b :: bs => if b.2 < a.2 then a :: b :: bs else b :: insertScored a bs

/-- `res.sort_values('score', ascending=False)`. pandas computes an ascending
argsort of the reversed score array and reverses the resulting indexer, which
(whenever the underlying numpy argsort is in its stable insertion-sort regime,
i.e. fewer than 17 rows) yields exactly the descending order with ties in
original row order; this definition is that order. -/
noncomputable def sortScoresDesc (xs : List (Entry × ℝ)) : List (Entry × ℝ) :=
  xs.foldl (fun acc a => insertScored a acc) []

/-- A scored table sorted descending by score: every adjacent pair is
non-increasing. -/
def SortedDesc (l : List (Entry × ℝ)) : Prop := l.Chain' (fun x y => y.2 ≤ x.2)

/-- `df.head(n)`, i.e. `df.iloc[:n]`: the first `n` rows for `n ≥ 0` (all rows
when `n` exceeds the length), and all rows BUT THE LAST `|n|` for negative
`n`. -/
def pandasHead {α : Type} (xs : List α) (n : Int) : List α :=
  if 0 ≤ n then xs.take n.toNat else xs.take (xs.length - (-n).toNat)

/-- The body of `Recommender.recommend` (lines 59-84), threading the object
state: the method reads `self.model`, `self.embeddings`, `self.companies`,
copies the companies table, and never assigns to `self`, so the resulting
state is returned alongside the records. -/
noncomputable def recommendSt (r : Recommender) (candidate_text candidate_skills : Str)
    (pref : Option Str) (is_rural : Bool) (top_k : Int) (w : Weights) :
    List (Entry × ℝ) × Recommender :=
  (pandasHead (sortScoresDesc (scoredTable r candidate_text candidate_skills pref is_rural w))
     top_k,
   r)

/-- `Recommender.recommend`: the returned `to_dict(orient="records")` list,
each record being a catalog entry together with its score column. -/
noncomputable def recommend (r : Recommender) (candidate_text candidate_skills : Str)
    (pref : Option Str) (is_rural : Bool) (top_k : Int) (w : Weights) : List (Entry × ℝ) :=
  (recommendSt r candidate_text candidate_skills pref is_rural top_k w).1

/-! ## `resume_parser.py`

`PdfReader` (with its page-joining) and the Groq chat call (with the
brace-block extraction and `json.loads` of its reply) are third-party- and
network-facing; they are abstracted as `Except`-valued parameters. Everything
else in the module is translated concretely. Python dictionaries are
association lists.
-/

/-- The eight profile keys of the parser contract. -/
def profileKeys : List String :=
  ["name", "email", "education", "skills", "sector_interests", "location_pref",
   "experience", "projects"]

/-- `extract_text_from_pdf_bytes`: any exception from the PDF library yields
the empty string. -/
def extract_text_from_pdf_bytes {Bytes : Type} (pdfRead : Bytes → Except String String)
    (b : Bytes) : String :=
  match pdfRead b with
  | .ok s => s
  | .error _ => ""

/-- Python `str.strip()` on a `String`. -/
def stripPyStr (s : String) : String := String.mk (stripStep s.toList)

/-- `re.sub(r"\s+", " ", text).strip()` of `safe_json_from_llm`. -/
def cleanWs (s : String) : String := String.mk (stripStep (collapseStep s.toList))

/-- The `parsed.setdefault(k, "")` loop over the eight keys. -/
def ensureKeys (d : List (String × String)) : List (String × String) :=
  profileKeys.foldl (fun acc k => if (acc.lookup k).isSome then acc else acc ++ [(k, "")]) d

/-- `safe_json_from_llm`: raises `RuntimeError` when no client is configured;
`llm` abstracts the chat call, the extraction of the first brace-delimited
block of the reply, and `json.loads` (each failure is an `Except.error`); a
successful parse gets the eight keys filled in by `setdefault`. -/
def safe_json_from_llm (hasClient : Bool)
    (llm : String → Except String (List (String × String))) (text : String) :
    Except String (List (String × String)) :=
  if !hasClient then .error ("RuntimeError")
  else
    match llm (cleanWs text) with
    | .error e => .error e
    | .ok parsed => .ok (ensureKeys parsed)

/-- The local-part class `[a-z0-9_.+-]` of the fallback email regex. -/
def emailLocalChar (c : Char) : Bool :=
  decide ((97 ≤ c.toNat ∧ c.toNat ≤ 122) ∨ (48 ≤ c.toNat ∧ c.toNat ≤ 57)) ||
    c = '_' || c = '.' || c = '+' || c = '-'

/-- The domain class `[a-z0-9-]`. -/
def emailDomChar (c : Char) : Bool :=
  decide ((97 ≤ c.toNat ∧ c.toNat ≤ 122) ∨ (48 ≤ c.toNat ∧ c.toNat ≤ 57)) || c = '-'

/-- The tail class `[a-z0-9-.]`. -/
def emailTailChar (c : Char) : Bool := emailDomChar c || c = '.'

/-- One attempted match of `[a-z0-9_.+-]+@[a-z0-9-]+\.[a-z0-9-.]+` at the
current position; each character class excludes the delimiter that follows it,
so greedy matching needs no backtracking. -/
def matchEmailAt (s : Str) : Option Str :=
  let lp := s.takeWhile emailLocalChar
  if lp = [] then none
  else
    match s.drop lp.length with
    | '@' :: rest =>
      let dom := rest.takeWhile emailDomChar
      if dom = [] then none
      else
        match rest.drop dom.length with
        | '.' :: rest2 =>
          let tl := rest2.takeWhile emailTailChar
          if tl = [] then none
          else some (lp ++ '@' :: (dom ++ '.' :: tl))
        | _ => none
    | _ => none

/-- `re.search` of the email regex: the leftmost matching position wins. -/
def searchEmail : Str → Option Str
  | [] => none
  | c :: cs =>
    match matchEmailAt (c :: cs) with
    | some m => some m
    | none => searchEmail cs

/-- The digit class `\d`. -/
def isDigitChar (c : Char) : Bool := decide (48 ≤ c.toNat ∧ c.toNat ≤ 57)

/-- One attempted match of `(\d+)\s+year` at the current position. -/
def matchNumYearAt (s : Str) : Option Str :=
  let ds := s.takeWhile isDigitChar
  if ds = [] then none
  else
    let rest := s.drop ds.length
    let ws := rest.takeWhile pyWs
    if ws = [] then none
    else if decide (("year".toList) <+: rest.drop ws.length) then
      some (ds ++ ws ++ ("year".toList))
    else none

/-- `re.search(r"(\d+)\s+year", t)`: leftmost match. -/
def searchNumYear : Str → Option Str
  | [] => none
  | c :: cs =>
    match matchNumYearAt (c :: cs) with
    | some m => some m
    | none => searchNumYear cs

/-- The `KEYS` dictionary of `fallback_extract`. -/
def fallbackSkillKeys : List String :=
  ["python", "sql", "excel", "pandas", "numpy", "machine learning",
   "flutter", "dart", "git", "aws", "tensorflow", "react", "canva"]

/-- `fallback_extract`: rule-based extraction; always returns the full
eight-key record. -/
def fallback_extract (text : String) : List (String × String) :=
  let t := text.toList.map pyLower
  let email :=
    match searchEmail t with
    | some m => String.mk m
    | none => ""
  let skills := fallbackSkillKeys.filter (fun k => pyIn k.toList t)
  let edu :=
    if pyIn ("b.tech".toList) t || pyIn ("btech".toList) t then "B.Tech"
    else if pyIn ("m.tech".toList) t || pyIn ("mtech".toList) t then "M.Tech"
    else if pyIn ("mba".toList) t then "MBA"
    else ""
  let exp :=
    match searchNumYear t with
    | some m => String.mk m
    | none => "Fresher"
  [("name", ""), ("email", email), ("education", edu),
   ("skills", String.intercalate (", ") skills), ("sector_interests", ""),
   ("location_pref", ""), ("experience", exp), ("projects", "")]

/-- `parse_resume_with_llm`: PDF extraction is total (its own try/except), an
empty extraction falls back to utf-8-with-ignore decoding (`decodeU8`, total),
and any LLM failure is answered by `fallback_extract`; the function itself
never raises. -/
def parse_resume_with_llm {Bytes : Type} (pdfRead : Bytes → Except String String)
    (decodeU8 : Bytes → String) (hasClient : Bool)
    (llm : String → Except String (List (String × String))) (b : Bytes) :
    List (String × String) :=
  let t0 := extract_text_from_pdf_bytes pdfRead b
  let text := if stripPyStr t0 = "" then decodeU8 b else t0
  match safe_json_from_llm hasClient llm text with
  | .ok d => d
  | .error _ => fallback_extract text

/-! ## `utils.py` `save_student_profile` (lines 12-48)

`pd.read_csv` and `DataFrame.to_csv` are abstracted (`readCsv`, `writeCsv`);
the DataFrame itself and every operation the function performs on it are
concrete. The filesystem is a map from path to contents.
-/

/-- A pandas DataFrame: the column list, and the rows as association lists
from column name to cell value. -/
structure DataFrame where
  columns : List String
  rows : List (List (String × String))

/-- `df[key] = ""` for a key not yet among the columns. -/
def addEmptyColumn (df : DataFrame) (k : String) : DataFrame :=
  { columns := df.columns ++ [k], rows := df.rows.map (fun r => r ++ [(k, "")]) }

/-- Set one cell of a row. -/
def rowSet (r : List (String × String)) (k v : String) : List (String × String) :=
  if (r.lookup k).isSome then r.map (fun kv => if kv.1 = k then (k, v) else kv)
  else r ++ [(k, v)]

/-- `for k, v in record.items(): df.loc[df["email"] == email, k] = v` applied
to one matching row; the row mask is stable through the loop because the email
cell is only ever rewritten to the same value it is matched on. -/
def applyRecord (record r : List (String × String)) : List (String × String) :=
  record.foldl (fun rr kv => rowSet rr kv.1 kv.2) r

/-- The filesystem state: path to file contents. -/
def FS : Type := String → Option String

/-- `save_student_profile(record, filepath)`: read or create the table, add
missing columns, validate the email, update or append, write back. The result
is the Python return value (or the raised `ValueError`) together with the
filesystem after the call. -/
def save_student_profile (readCsv : String → DataFrame) (writeCsv : DataFrame → String)
    (record : List (String × String)) (filepath : String) (fs : FS) :
    Except String (List (String × String)) × FS :=
  let df0 :=
    match fs filepath with
    | some content =>
      if content ≠ "" then readCsv content
      else { columns := record.map Prod.fst, rows := [] }
    | none => { columns := record.map Prod.fst, rows := [] }
  let df1 := record.foldl (fun d kv => if kv.1 ∈ d.columns then d else addEmptyColumn d kv.1) df0
  match record.lookup ("email") with
  | none => (.error ("ValueError"), fs)
  | some email =>
    if email = "" then (.error ("ValueError"), fs)
    else
      let df2 :=
        if ("email") ∈ df1.columns ∧ df1.rows.any (fun r => r.lookup ("email") = some email) then
          { df1 with rows := df1.rows.map (fun r =>
              if r.lookup ("email") = some email then applyRecord record r else r) }
        else { df1 with rows := df1.rows ++ [record] }
      (.ok record, fun p => if p = filepath then some (writeCsv df2) else fs p)

/-! ## Lemmas about the text pipeline -/

/-- Absence of two adjacent whitespace characters. -/
def NoWW (l : Str) : Prop := l.Chain' (fun a b => pyWs a = false ∨ pyWs b = false)

theorem mem_subStep_allowed (l : Str) : ∀ c ∈ subStep l, allowedChar c = true := by
  induction l using subStep.induct with
  | case1 => intro c hc; simp [subStep] at hc
  | case2 c h =>
    intro x hx
    simp [subStep, h] at hx
    subst hx; exact h
  | case3 c h =>
    intro x hx
    simp [subStep, h] at hx
    subst hx; decide
  | case4 c d cs h ih =>
    intro x hx
    rw [subStep, if_pos h] at hx
    rcases List.mem_cons.mp hx with h1 | h1
    · subst h1; exact h
    · exact ih x h1
  | case5 c d cs h h2 ih =>
    intro x hx
    rw [subStep, if_neg h, if_pos h2] at hx
    rcases List.mem_cons.mp hx with h1 | h1
    · subst h1; decide
    · exact ih x h1
  | case6 c d cs h h2 ih =>
    intro x hx
    rw [subStep, if_neg h, if_neg h2] at hx
    exact ih x hx

theorem mem_collapseStep (l : Str) : ∀ c ∈ collapseStep l, c ∈ l ∨ c = ' ' := by
  induction l using collapseStep.induct with
  | case1 => intro c hc; simp [collapseStep] at hc
  | case2 c h =>
    intro x hx
    simp [collapseStep, h] at hx
    subst hx; right; rfl
  | case3 c h =>
    intro x hx
    simp [collapseStep, h] at hx
    subst hx; left; simp
  | case4 c d cs h h2 ih =>
    intro x hx
    rw [collapseStep, if_pos h, if_pos h2] at hx
    rcases ih x hx with h1 | h1
    · left; exact List.mem_cons_of_mem c h1
    · right; exact h1
  | case5 c d cs h h2 ih =>
    intro x hx
    rw [collapseStep, if_pos h, if_neg h2] at hx
    rcases List.mem_cons.mp hx with h1 | h1
    · right; exact h1
    · rcases ih x h1 with h3 | h3
      · left; exact List.mem_cons_of_mem c h3
      · right; exact h3
  | case6 c d cs h ih =>
    rw [collapseStep, if_neg h]
    intro x hx
    rcases List.mem_cons.mp hx with h1 | h1
    · left; subst h1; simp
    · rcases ih x h1 with h3 | h3
      · left; exact List.mem_cons_of_mem c h3
      · right; exact h3

theorem mem_dropWhile_imp (p : Char → Bool) (l : Str) : ∀ c ∈ l.dropWhile p, c ∈ l := by
  induction l with
  | nil => simp
  | cons a as ih =>
    intro c hc
    by_cases h : p a
    · rw [List.dropWhile_cons_of_pos h] at hc
      exact List.mem_cons_of_mem a (ih c hc)
    · rw [List.dropWhile_cons_of_neg h] at hc
      exact hc

theorem mem_stripStep (l : Str) : ∀ c ∈ stripStep l, c ∈ l := by
  intro c hc
  unfold stripStep at hc
  rw [List.mem_reverse] at hc
  have h1 := mem_dropWhile_imp pyWs _ c hc
  rw [List.mem_reverse] at h1
  exact mem_dropWhile_imp pyWs _ c h1

theorem mem_normalize_allowed (s : Str) : ∀ c ∈ normalize_text s, allowedChar c = true := by
  intro c hc
  unfold normalize_text at hc
  have h1 := mem_stripStep _ c hc
  rcases mem_collapseStep _ c h1 with h2 | h2
  · exact mem_subStep_allowed _ c h2
  · subst h2; decide

theorem allowed_ws_eq_space (c : Char) (h1 : allowedChar c = true) (h2 : pyWs c = true) :
    c = ' ' := by
  simp only [allowedChar, decide_eq_true_eq] at h1
  simp only [pyWs, Bool.or_eq_true, decide_eq_true_eq] at h2
  rcases h2 with ((((h | h) | h) | h) | h) | h
  · exact h
  · exfalso; subst h; revert h1; decide
  · exfalso; subst h; revert h1; decide
  · exfalso; omega
  · exfalso; omega
  · exfalso; subst h; revert h1; decide

theorem pyLower_eq_self_of_allowed (c : Char) (h : allowedChar c = true) : pyLower c = c := by
  simp only [allowedChar, decide_eq_true_eq] at h
  unfold pyLower
  rw [if_neg]
  omega

theorem subStep_eq_self (l : Str) (h : ∀ c ∈ l, allowedChar c = true) : subStep l = l := by
  induction l using subStep.induct with
  | case1 => rfl
  | case2 c hc => rw [subStep, if_pos hc]
  | case3 c hc => exact absurd (h c (by simp)) hc
  | case4 c d cs hc ih =>
    rw [subStep, if_pos hc, ih (fun x hx => h x (List.mem_cons_of_mem c hx))]
  | case5 c d cs hc _ _ => exact absurd (h c (by simp)) hc
  | case6 c d cs hc _ _ => exact absurd (h c (by simp)) hc

theorem collapseStep_head (c : Char) (cs : Str) :
    (collapseStep (c :: cs)).head? = some (if pyWs c then ' ' else c) := by
  induction cs generalizing c with
  | nil => by_cases h : pyWs c <;> simp [collapseStep, h]
  | cons d ds ih =>
    by_cases h : pyWs c
    · by_cases h2 : pyWs d
      · rw [collapseStep, if_pos h, if_pos h2, ih d, if_pos h2, if_pos h]
      · rw [collapseStep, if_pos h, if_neg h2, if_pos h]; rfl
    · rw [collapseStep, if_neg h, if_neg h]; rfl

theorem noWW_collapseStep (l : Str) : NoWW (collapseStep l) := by
  induction l using collapseStep.induct with
  | case1 => exact List.chain'_nil
  | case2 c h => simp [collapseStep, h, NoWW]
  | case3 c h => simp [collapseStep, h, NoWW]
  | case4 c d cs h h2 ih => rw [collapseStep, if_pos h, if_pos h2]; exact ih
  | case5 c d cs h h2 ih =>
    rw [collapseStep, if_pos h, if_neg h2]
    refine (List.chain'_cons'.mpr ⟨?_, ih⟩)
    intro y hy
    rw [collapseStep_head d cs, if_neg h2] at hy
    simp at hy
    subst hy
    right
    simp [h2]
  | case6 c d cs h ih =>
    rw [collapseStep, if_neg h]
    refine (List.chain'_cons'.mpr ⟨?_, ih⟩)
    intro y _
    left
    simp [h]

theorem collapseStep_eq_self (l : Str) (h1 : NoWW l)
    (h2 : ∀ c ∈ l, pyWs c = true → c = ' ') : collapseStep l = l := by
  induction l using collapseStep.induct with
  | case1 => rfl
  | case2 c h => rw [collapseStep, if_pos h, h2 c (by simp) h]
  | case3 c h => rw [collapseStep, if_neg h]
  | case4 c d cs h h2' _ =>
    exfalso
    rcases (List.chain'_cons.mp h1).1 with h3 | h3
    · simp [h] at h3
    · simp [h2'] at h3
  | case5 c d cs h h2' ih =>
    rw [collapseStep, if_pos h, if_neg h2',
      ih ((List.chain'_cons.mp h1).2) (fun x hx hw => h2 x (List.mem_cons_of_mem c hx) hw),
      h2 c (by simp) h]
  | case6 c d cs h ih =>
    rw [collapseStep, if_neg h,
      ih ((List.chain'_cons.mp h1).2) (fun x hx hw => h2 x (List.mem_cons_of_mem c hx) hw)]

theorem noWW_tail (c : Char) (cs : Str) (h : NoWW (c :: cs)) : NoWW cs :=
  (List.chain'_cons'.mp h).2

theorem noWW_dropWhile (p : Char → Bool) (l : Str) (h : NoWW l) : NoWW (l.dropWhile p) := by
  induction l with
  | nil => exact h
  | cons c cs ih =>
    by_cases hp : p c
    · rw [List.dropWhile_cons_of_pos hp]
      exact ih (noWW_tail c cs h)
    · rw [List.dropWhile_cons_of_neg hp]
      exact h

theorem noWW_reverse (l : Str) (h : NoWW l) : NoWW l.reverse := by
  unfold NoWW
  rw [List.chain'_reverse]
  exact h.imp (fun a b hab => Or.symm hab)

theorem noWW_stripStep (l : Str) (h : NoWW l) : NoWW (stripStep l) :=
  noWW_reverse _ (noWW_dropWhile _ _ (noWW_reverse _ (noWW_dropWhile _ _ h)))

theorem dropWhile_head_false (p : Char → Bool) (l : Str) :
    ∀ x, (l.dropWhile p).head? = some x → p x = false := by
  induction l with
  | nil => intro x hx; simp [List.dropWhile] at hx
  | cons c cs ih =>
    intro x hx
    by_cases h : p c
    · rw [List.dropWhile_cons_of_pos h] at hx; exact ih x hx
    · rw [List.dropWhile_cons_of_neg h] at hx
      simp at hx
      subst hx
      simpa using h

theorem dropWhile_eq_self_of_head (p : Char → Bool) (l : Str)
    (h : ∀ x, l.head? = some x → p x = false) : l.dropWhile p = l := by
  cases l with
  | nil => rfl
  | cons c cs => exact List.dropWhile_cons_of_neg (by simp [h c rfl])

theorem dropWhile_dropWhile (p : Char → Bool) (l : Str) :
    List.dropWhile p (List.dropWhile p l) = List.dropWhile p l :=
  dropWhile_eq_self_of_head p _ (dropWhile_head_false p l)

theorem dropWhile_suffix_self (p : Char → Bool) (l : Str) : l.dropWhile p <:+ l := by
  induction l with
  | nil => exact List.suffix_rfl
  | cons c cs ih =>
    by_cases h : p c
    · rw [List.dropWhile_cons_of_pos h]
      exact ih.trans (List.suffix_cons c cs)
    · rw [List.dropWhile_cons_of_neg h]

theorem stripStep_head_false (l : Str) :
    ∀ x, (stripStep l).head? = some x → pyWs x = false := by
  intro x hx
  have hpre : stripStep l <+: List.dropWhile pyWs l := by
    have h1 := dropWhile_suffix_self pyWs (List.dropWhile pyWs l).reverse
    have h2 := List.reverse_prefix.mpr h1
    rwa [List.reverse_reverse] at h2
  rcases hpre with ⟨r, hr⟩
  have hhead : (List.dropWhile pyWs l).head? = some x := by
    rw [← hr]
    cases hs : stripStep l with
    | nil => rw [hs] at hx; simp at hx
    | cons a as =>
      rw [hs] at hx
      simp at hx
      simp [hx]
  exact dropWhile_head_false pyWs l x hhead

theorem stripStep_stripStep (l : Str) : stripStep (stripStep l) = stripStep l := by
  have h1 : List.dropWhile pyWs (stripStep l) = stripStep l :=
    dropWhile_eq_self_of_head pyWs _ (stripStep_head_false l)
  show ((List.dropWhile pyWs (stripStep l)).reverse.dropWhile pyWs).reverse = stripStep l
  rw [h1]
  show ((((l.dropWhile pyWs).reverse.dropWhile pyWs).reverse).reverse.dropWhile pyWs).reverse
    = stripStep l
  rw [List.reverse_reverse, dropWhile_dropWhile]
  rfl

theorem map_eq_self_of (f : Char → Char) (l : Str) (h : ∀ c ∈ l, f c = c) : l.map f = l := by
  induction l with
  | nil => rfl
  | cons c cs ih =>
    rw [List.map_cons, h c (by simp), ih (fun x hx => h x (List.mem_cons_of_mem c hx))]

theorem normalize_text_idem (s : Str) : normalize_text (normalize_text s) = normalize_text s := by
  have hall : ∀ c ∈ normalize_text s, allowedChar c = true := mem_normalize_allowed s
  have h1 : (normalize_text s).map pyLower = normalize_text s :=
    map_eq_self_of pyLower _ (fun c hc => pyLower_eq_self_of_allowed c (hall c hc))
  have h2 : subStep (normalize_text s) = normalize_text s :=
    subStep_eq_self _ hall
  have hnoww : NoWW (normalize_text s) :=
    noWW_stripStep _ (noWW_collapseStep _)
  have h3 : collapseStep (normalize_text s) = normalize_text s :=
    collapseStep_eq_self _ hnoww
      (fun c hc hw => allowed_ws_eq_space c (hall c hc) hw)
  show stripStep (collapseStep (subStep ((normalize_text s).map pyLower))) = normalize_text s
  rw [h1, h2, h3]
  exact stripStep_stripStep _

theorem subStep_head (c : Char) (cs : Str) :
    (subStep (c :: cs)).head? = some (if allowedChar c then c else ' ') := by
  induction cs generalizing c with
  | nil => by_cases h : allowedChar c <;> simp [subStep, h]
  | cons d ds ih =>
    by_cases h : allowedChar c
    · rw [subStep, if_pos h, if_pos h]; rfl
    · by_cases h2 : allowedChar d
      · rw [subStep, if_neg h, if_pos h2, if_neg h]; rfl
      · rw [subStep, if_neg h, if_neg h2, ih d, if_neg h2, if_neg h]

theorem collapseStep_cons_congr (c : Char) (X Y : Str) (hh : X.head? = Y.head?)
    (he : collapseStep X = collapseStep Y) :
    collapseStep (c :: X) = collapseStep (c :: Y) := by
  cases X with
  | nil =>
    cases Y with
    | nil => rfl
    | cons y ys => simp at hh
  | cons x xs =>
    cases Y with
    | nil => simp at hh
    | cons y ys =>
      simp at hh
      subst hh
      by_cases hc : pyWs c
      · by_cases hx : pyWs x
        · rw [collapseStep, if_pos hc, if_pos hx, he, collapseStep, if_pos hc, if_pos hx]
        · rw [collapseStep, if_pos hc, if_neg hx, he, collapseStep, if_pos hc, if_neg hx]
      · rw [collapseStep, if_neg hc, he, collapseStep, if_neg hc]

theorem collapse_subStep_eq_collapse_repl (l : Str) :
    collapseStep (subStep l) = collapseStep (l.map replChar) := by
  induction l using subStep.induct with
  | case1 => rfl
  | case2 c h => simp [subStep, replChar, h]
  | case3 c h => simp [subStep, replChar, h]
  | case4 c d cs h ih =>
    have hrc : replChar c = c := by simp [replChar, h]
    rw [subStep, if_pos h, List.map_cons, hrc]
    refine collapseStep_cons_congr c _ _ ?_ ih
    rw [subStep_head]
    simp [replChar]
  | case5 c d cs h h2 ih =>
    have hrc : replChar c = ' ' := by simp [replChar, h]
    rw [subStep, if_neg h, if_pos h2, List.map_cons, hrc]
    refine collapseStep_cons_congr ' ' _ _ ?_ ih
    rw [subStep_head]
    simp [replChar]
  | case6 c d cs h h2 ih =>
    have hrc : replChar c = ' ' := by simp [replChar, h]
    have hrd : replChar d = ' ' := by simp [replChar, h2]
    rw [subStep, if_neg h, if_neg h2, List.map_cons, hrc]
    have heat : collapseStep (' ' :: (d :: cs).map replChar)
        = collapseStep ((d :: cs).map replChar) := by
      rw [List.map_cons, hrd, collapseStep, if_pos (by decide), if_pos (by decide)]
    rw [heat, ih]

/-! ## Claims C3, C4, C5 -/

/-- Claim C3: for every input value (any string, and the non-string fallback),
`normalize_text` is idempotent and its output contains no character outside
lowercase letters, digits, comma and space. -/
theorem claim3_normalize_idempotent_charset (v : Option Str) :
    (∀ c ∈ normalize_text_py v, allowedChar c = true) ∧
    normalize_text (normalize_text_py v) = normalize_text_py v := by
  cases v with
  | none =>
    constructor
    · intro c hc; simp [normalize_text_py] at hc
    · rfl
  | some s => exact ⟨mem_normalize_allowed s, normalize_text_idem s⟩

/-- Witness for C3 at a concrete input. -/
theorem claim3_witness :
    allowedChar 'h' = true ∧
    normalize_text (normalize_text_py (some ("  Hello,   WORLD!! 42\t ".toList)))
      = normalize_text_py (some ("  Hello,   WORLD!! 42\t ".toList)) :=
  ⟨(claim3_normalize_idempotent_charset (some ("  Hello,   WORLD!! 42\t ".toList))).1 'h'
      (by decide),
    (claim3_normalize_idempotent_charset (some ("  Hello,   WORLD!! 42\t ".toList))).2⟩

/-- Counterexample to claim C4 as stated: `[""]` is a non-empty skill list, yet
`jaccard_score` of it with itself is 0 rather than 1, because the Python code
filters out falsy (empty) strings before building the sets. -/
theorem claim4_counterexample :
    ([([] : Str)] : List Str) ≠ [] ∧
    jaccard_score [([] : Str)] [([] : Str)] = 0 ∧ (0 : ℚ) ≠ 1 := by
  refine ⟨by simp, by decide, by norm_num⟩

/-- Claim C4 (amended): `jaccard_score X X = 1` for every skill list `X` that
contains at least one non-empty string, and `jaccard_score [] [] = 0`. -/
theorem claim4_self_and_empty :
    (∀ X : List Str, (∃ x ∈ X, x ≠ []) → jaccard_score X X = 1) ∧
    jaccard_score ([] : List Str) [] = 0 := by
  constructor
  · intro X hX
    have hmem : normalize_text hX.choose ∈ skillSet X := by
      unfold skillSet
      rw [List.mem_toFinset]
      exact List.mem_map_of_mem _
        (List.mem_filter.mpr ⟨hX.choose_spec.1, by simpa using hX.choose_spec.2⟩)
    have hne : skillSet X ≠ ∅ := by
      intro h
      rw [h] at hmem
      simp at hmem
    have hcard : ((skillSet X).card : ℚ) ≠ 0 := by
      rw [Nat.cast_ne_zero, ← Nat.pos_iff_ne_zero, Finset.card_pos]
      exact ⟨_, hmem⟩
    unfold jaccard_score
    simp only [Finset.union_self, Finset.inter_self]
    rw [if_neg (fun h => hne h.1), if_pos hne, div_self hcard]
  · decide

/-- Witness for the amended C4 at a concrete input. -/
theorem claim4_witness :
    (∃ x ∈ [("python".toList)], x ≠ ([] : Str)) ∧
    jaccard_score [("python".toList)] [("python".toList)] = 1 :=
  ⟨⟨("python".toList), by decide⟩,
    claim4_self_and_empty.1 [("python".toList)] ⟨("python".toList), by decide⟩⟩

/-- Counterexample to claim C5 as stated: on "a!b" the code yields "a b" (the
disallowed character is replaced by a space), while the deletion semantics the
claim describes would yield "ab". -/
theorem claim5_counterexample :
    normalize_text ("a!b".toList) = ("a b".toList) ∧
    normalizeSpecDeleting ("a!b".toList) = ("ab".toList) ∧
    normalize_text ("a!b".toList) ≠ normalizeSpecDeleting ("a!b".toList) := by
  refine ⟨by decide, by decide, by decide⟩

/-- Claim C5 (amended): `normalize_text` lowercases its input, replaces every
character outside lowercase letters, digits, comma, space by a SPACE (rather
than deleting it), collapses whitespace runs to one space, and trims; a
disallowed character between two letters therefore leaves a single space. -/
theorem claim5_replacement_semantics (s : Str) :
    normalize_text s = normalizeSpecReplacing s := by
  unfold normalize_text normalizeSpecReplacing
  rw [collapse_subStep_eq_collapse_repl]

/-! ## Lemmas about the scoring pipeline -/

theorem weightedSum_length (w : Weights) (a b c d : List ℝ) :
    (weightedSum w a b c d).length = min (min (min a.length b.length) c.length) d.length := by
  induction a generalizing b c d with
  | nil => cases b <;> cases c <;> cases d <;> simp [weightedSum]
  | cons x xs ih =>
    cases b with
    | nil => simp [weightedSum]
    | cons y ys =>
      cases c with
      | nil => simp [weightedSum]
      | cons z zs =>
        cases d with
        | nil => simp [weightedSum]
        | cons u us =>
          rw [weightedSum]
          simp only [List.length_cons, ih]
          omega

theorem locationBonusVec_length (pref : Option Str) (companies : List Entry) :
    (locationBonusVec pref companies).length = companies.length := by
  cases pref with
  | none => simp [locationBonusVec]
  | some p =>
    by_cases h : p = [] <;> simp [locationBonusVec, h]

theorem govBonusVec_length (is_rural : Bool) (companies : List Entry) :
    (govBonusVec is_rural companies).length = companies.length := by
  cases is_rural <;> simp [govBonusVec]

theorem finalScores_length (r : Recommender) (h : r.embeddings.length = r.companies.length)
    (ct cs : Str) (pref : Option Str) (is_rural : Bool) (w : Weights) :
    (finalScores r ct cs pref is_rural w).length = r.companies.length := by
  unfold finalScores
  rw [weightedSum_length]
  simp [simVec, jaccardVec, locationBonusVec_length, govBonusVec_length, h]

theorem scoredTable_length (r : Recommender) (h : r.embeddings.length = r.companies.length)
    (ct cs : Str) (pref : Option Str) (is_rural : Bool) (w : Weights) :
    (scoredTable r ct cs pref is_rural w).length = r.companies.length := by
  unfold scoredTable
  rw [List.length_zip, finalScores_length r h]
  simp

theorem insertScored_perm (a : Entry × ℝ) (l : List (Entry × ℝ)) :
    (insertScored a l).Perm (a :: l) := by
  induction l with
  | nil => rfl
  | cons b bs ih =>
    rw [insertScored]
    by_cases h : b.2 < a.2
    · rw [if_pos h]
    · rw [if_neg h]
      exact (ih.cons b).trans (List.Perm.swap a b bs)

theorem sortFold_perm (l acc : List (Entry × ℝ)) :
    (l.foldl (fun acc a => insertScored a acc) acc).Perm (acc ++ l) := by
  induction l generalizing acc with
  | nil => simp
  | cons x xs ih =>
    rw [List.foldl_cons]
    refine (ih (insertScored x acc)).trans ?_
    have h1 : (insertScored x acc ++ xs).Perm ((x :: acc) ++ xs) :=
      (insertScored_perm x acc).append_right xs
    refine h1.trans ?_
    simp only [List.cons_append]
    exact List.perm_middle.symm

theorem sortScoresDesc_perm (l : List (Entry × ℝ)) : (sortScoresDesc l).Perm l :=
  sortFold_perm l []

theorem insertScored_head_le (a : Entry × ℝ) (bs : List (Entry × ℝ)) (t : ℝ)
    (ha : a.2 ≤ t) (hb : ∀ z, bs.head? = some z → z.2 ≤ t) :
    ∀ y, (insertScored a bs).head? = some y → y.2 ≤ t := by
  intro y hy
  cases bs with
  | nil =>
    simp [insertScored] at hy
    subst hy; exact ha
  | cons c cs =>
    rw [insertScored] at hy
    by_cases h : c.2 < a.2
    · rw [if_pos h] at hy
      simp at hy
      subst hy; exact ha
    · rw [if_neg h] at hy
      simp at hy
      subst hy
      exact hb c rfl

theorem insertScored_sorted (a : Entry × ℝ) (l : List (Entry × ℝ)) (h : SortedDesc l) :
    SortedDesc (insertScored a l) := by
  induction l with
  | nil => simp [insertScored, SortedDesc]
  | cons b bs ih =>
    rw [insertScored]
    by_cases hba : b.2 < a.2
    · rw [if_pos hba]
      exact List.Chain'.cons (le_of_lt hba) h
    · rw [if_neg hba]
      rcases List.chain'_cons'.mp h with ⟨hhead, hbs⟩
      refine List.chain'_cons'.mpr ⟨?_, ih hbs⟩
      intro y hy
      exact insertScored_head_le a bs b.2 (not_lt.mp hba)
        (fun z hz => hhead z hz) y hy

theorem sortFold_sorted (l acc : List (Entry × ℝ)) (h : SortedDesc acc) :
    SortedDesc (l.foldl (fun acc a => insertScored a acc) acc) := by
  induction l generalizing acc with
  | nil => exact h
  | cons x xs ih => exact ih _ (insertScored_sorted x acc h)

theorem sortScoresDesc_sorted (l : List (Entry × ℝ)) : SortedDesc (sortScoresDesc l) :=
  sortFold_sorted l [] (by simp [SortedDesc])

/-! ## Claims C6, C7, C8 -/

/-- Claim C8: `recommend` leaves the engine state unchanged: the companies
table (with its derived `combined_text` and `IsGovernment` columns) and the
precomputed embedding matrix are identical before and after the call; the
method builds its result on a copy of the table. -/
theorem claim8_recommend_preserves_state (r : Recommender) (ct cs : Str) (pref : Option Str)
    (is_rural : Bool) (top_k : Int) (w : Weights) :
    (recommendSt r ct cs pref is_rural top_k w).2 = r ∧
    ((recommendSt r ct cs pref is_rural top_k w).2).companies = r.companies ∧
    ((recommendSt r ct cs pref is_rural top_k w).2).embeddings = r.embeddings :=
  ⟨rfl, rfl, rfl⟩

/-- Claim C6: the location bonus is the all-zero vector whenever the
preference is absent, empty, or normalizes to the empty string; otherwise an
entry gets 1.0 exactly when the normalized preference is a substring of the
entry's normalized Location. -/
theorem claim6_location_bonus (companies : List Entry) :
    (∀ pref : Option Str,
        (pref = none ∨ pref = some [] ∨ (∃ p, pref = some p ∧ normalize_text p = [])) →
        locationBonusVec pref companies = List.replicate companies.length 0) ∧
    (∀ p : Str, p ≠ [] → normalize_text p ≠ [] →
        locationBonusVec (some p) companies
          = companies.map (fun c =>
              if pyIn (normalize_text p) (normalize_text c.Location) then (1 : ℝ) else 0)) := by
  constructor
  · rintro pref (rfl | rfl | ⟨p, rfl, hp⟩)
    · rfl
    · simp [locationBonusVec]
    · by_cases hpe : p = []
      · simp [locationBonusVec, hpe]
      · simp only [locationBonusVec, if_pos hpe, hp]
        simp [List.eq_replicate_iff]
  · intro p hp hnp
    simp only [locationBonusVec, if_pos hp]
    refine List.map_congr_left ?_
    intro c _
    simp [hnp]

/-- Witness for C6: the spec scenario, preference "pune" against the entry
Location "Pune, Maharashtra" gives bonus 1.0. -/
theorem claim6_witness :
    locationBonusVec (some ("pune".toList))
        [mkEntry ⟨none, none, none, none, some ("Pune, Maharashtra".toList), none, none⟩]
      = [(1 : ℝ)] := by
  rw [(claim6_location_bonus
        [mkEntry ⟨none, none, none, none, some ("Pune, Maharashtra".toList), none, none⟩]).2
      ("pune".toList) (by decide) (by decide)]
  simp only [List.map_cons, List.map_nil]
  rw [if_pos (by decide)]

theorem sum_sq_nonneg (v : List ℝ) : 0 ≤ (v.map (fun x => x * x)).sum := by
  refine List.sum_nonneg ?_
  intro x hx
  rcases List.mem_map.mp hx with ⟨y, _, rfl⟩
  exact mul_self_nonneg y

theorem pyNorm_nonneg (v : List ℝ) : 0 ≤ pyNorm v := Real.sqrt_nonneg _

theorem all_zero_of_sum_sq_zero (v : List ℝ) (h : (v.map (fun x => x * x)).sum = 0) :
    ∀ x ∈ v, x = 0 := by
  induction v with
  | nil => simp
  | cons c cs ih =>
    simp only [List.map_cons, List.sum_cons] at h
    have h1 : c * c = 0 ∧ ((cs.map (fun x => x * x)).sum) = 0 :=
      (add_eq_zero_iff_of_nonneg (mul_self_nonneg c) (sum_sq_nonneg cs)).mp h
    intro x hx
    rcases List.mem_cons.mp hx with rfl | hx2
    · exact mul_self_eq_zero.mp h1.1
    · exact ih h1.2 x hx2

theorem pyNorm_zero_iff (v : List ℝ) (h : pyNorm v = 0) : ∀ x ∈ v, x = 0 := by
  have hs : (v.map (fun x => x * x)).sum = 0 :=
    le_antisymm (Real.sqrt_eq_zero'.mp h) (sum_sq_nonneg v)
  exact all_zero_of_sum_sq_zero v hs

theorem sum_sq_div (v : List ℝ) (n : ℝ) (hn : n ≠ 0) :
    ((v.map (fun x => x / n)).map (fun x => x * x)).sum
      = (v.map (fun x => x * x)).sum / (n * n) := by
  induction v with
  | nil => simp
  | cons c cs ih =>
    simp only [List.map_cons, List.sum_cons, ih]
    field_simp

theorem pyNorm_map_div (v : List ℝ) (n : ℝ) (hn : 0 < n) :
    pyNorm (v.map (fun x => x / n)) = pyNorm v / n := by
  unfold pyNorm
  rw [sum_sq_div v n (ne_of_gt hn), Real.sqrt_div (sum_sq_nonneg v),
    Real.sqrt_mul_self (le_of_lt hn)]

/-- Claim C7: the L2-normalization never divides by zero: a row of zero norm
is the zero vector and is returned unchanged (its norm is treated as 1.0); a
row of nonzero norm is scaled to unit L2 norm. -/
theorem claim7_normalize_embeddings_safe (M : List (List ℝ)) (i : ℕ) (v w : List ℝ)
    (hv : M[i]? = some v) (hw : (_normalize_embeddings M)[i]? = some w) :
    (pyNorm v = 0 → w = v ∧ v = List.replicate v.length 0) ∧
    (pyNorm v ≠ 0 → pyNorm w = 1) := by
  have hw2 : w = v.map (fun x => x / (if pyNorm v = 0 then 1 else pyNorm v)) := by
    unfold _normalize_embeddings at hw
    rw [List.getElem?_map, hv] at hw
    simpa using hw.symm
  constructor
  · intro h0
    constructor
    · rw [hw2, if_pos h0]
      simp
    · exact List.eq_replicate_of_mem (pyNorm_zero_iff v h0)
  · intro hne
    have hpos : 0 < pyNorm v := lt_of_le_of_ne (pyNorm_nonneg v) (Ne.symm hne)
    rw [hw2, if_neg hne, pyNorm_map_div v _ hpos, div_self hne]

/-- Witness for C7: the row [3, 4] has norm 5 and is scaled to [3/5, 4/5],
which has norm 1. -/
theorem claim7_witness : pyNorm [(3 : ℝ), 4] ≠ 0 ∧ pyNorm [(3 : ℝ)/5, 4/5] = 1 := by
  have h34 : pyNorm [(3 : ℝ), 4] = 5 := by
    unfold pyNorm
    rw [show (([(3 : ℝ), 4]).map (fun x => x * x)).sum = 25 by norm_num]
    rw [show (25 : ℝ) = 5^2 by norm_num, Real.sqrt_sq (by norm_num)]
  have hne : pyNorm [(3 : ℝ), 4] ≠ 0 := by rw [h34]; norm_num
  refine ⟨hne, ?_⟩
  have hmap : ([(3 : ℝ), 4]).map
      (fun x => x / (if pyNorm [(3 : ℝ), 4] = 0 then 1 else pyNorm [(3 : ℝ), 4]))
      = [(3 : ℝ)/5, 4/5] := by
    rw [if_neg hne, h34]
    norm_num
  have hw : (_normalize_embeddings [[(3 : ℝ), 4]])[0]? = some [(3 : ℝ)/5, 4/5] := by
    have h0 : _normalize_embeddings [[(3 : ℝ), 4]] = [[(3 : ℝ)/5, 4/5]] := by
      show [([(3 : ℝ), 4]).map
          (fun x => x / (if pyNorm [(3 : ℝ), 4] = 0 then 1 else pyNorm [(3 : ℝ), 4]))]
        = [[(3 : ℝ)/5, 4/5]]
      rw [hmap]
    rw [h0]
    rfl
  exact (claim7_normalize_embeddings_safe [[(3 : ℝ), 4]] 0 [(3 : ℝ), 4] [(3 : ℝ)/5, 4/5]
    rfl hw).2 hne

/-! ## Claim C1 -/

/-- Claim C1 (amended): `recommend` returns `head(top_k)` of the score-sorted
table: the first `top_k` rows for non-negative `top_k` (all rows, sorted
descending, when `top_k` is at least the catalog size; none when `top_k = 0`),
and for NEGATIVE `top_k` all rows except the last `|top_k|` (pandas `head`
semantics), not the empty sequence the original claim states. -/
theorem claim1_topk_semantics (r : Recommender) (h : r.embeddings.length = r.companies.length)
    (ct cs : Str) (pref : Option Str) (is_rural : Bool) (k : Int) (w : Weights) :
    (k = 0 → recommend r ct cs pref is_rural k w = []) ∧
    (0 ≤ k → (recommend r ct cs pref is_rural k w).length = min k.toNat r.companies.length) ∧
    ((r.companies.length : Int) ≤ k →
      recommend r ct cs pref is_rural k w
          = sortScoresDesc (scoredTable r ct cs pref is_rural w) ∧
      (recommend r ct cs pref is_rural k w).Perm (scoredTable r ct cs pref is_rural w) ∧
      SortedDesc (recommend r ct cs pref is_rural k w)) ∧
    (k < 0 → (recommend r ct cs pref is_rural k w).length
        = r.companies.length - (-k).toNat) := by
  have hst : (sortScoresDesc (scoredTable r ct cs pref is_rural w)).length
      = r.companies.length := by
    rw [(sortScoresDesc_perm _).length_eq, scoredTable_length r h]
  have hrec : recommend r ct cs pref is_rural k w
      = pandasHead (sortScoresDesc (scoredTable r ct cs pref is_rural w)) k := rfl
  refine ⟨?_, ?_, ?_, ?_⟩
  · intro hk
    subst hk
    rw [hrec]
    unfold pandasHead
    rw [if_pos (le_refl (0 : Int))]
    simp
  · intro hk
    rw [hrec]
    unfold pandasHead
    rw [if_pos hk, List.length_take, hst]
  · intro hk
    have hk0 : (0 : Int) ≤ k := le_trans (Int.ofNat_nonneg _) hk
    have hlen : (sortScoresDesc (scoredTable r ct cs pref is_rural w)).length ≤ k.toNat := by
      rw [hst]
      omega
    have heq : recommend r ct cs pref is_rural k w
        = sortScoresDesc (scoredTable r ct cs pref is_rural w) := by
      rw [hrec]
      unfold pandasHead
      rw [if_pos hk0]
      exact List.take_of_length_le hlen
    exact ⟨heq, heq ▸ sortScoresDesc_perm _, heq ▸ sortScoresDesc_sorted _⟩
  · intro hk
    rw [hrec]
    unfold pandasHead
    rw [if_neg (not_le.mpr hk), List.length_take, hst]
    omega

/-- Witness for the amended C1: `top_k = 0` on a one-entry catalog returns the
empty sequence. -/
theorem claim1_witness :
    recommend (mkRecommender (fun _ => []) [⟨none, none, none, none, none, none, none⟩])
      [] [] none false 0 defaultWeights = [] :=
  (claim1_topk_semantics (mkRecommender (fun _ => []) [⟨none, none, none, none, none, none, none⟩])
    (by simp [mkRecommender, _normalize_embeddings]) [] [] none false 0 defaultWeights).1 rfl

/-- Counterexample to C1 as stated: with a two-entry catalog and
`top_k = -1 ≤ 0`, `recommend` returns ONE record (pandas `head(-1)` drops only
the last row), not the empty sequence. -/
theorem claim1_counterexample :
    ((-1 : Int) ≤ 0) ∧
    (recommend (mkRecommender (fun _ => [])
        [⟨none, none, none, none, none, none, none⟩,
         ⟨none, none, none, none, none, none, none⟩])
      [] [] none false (-1) defaultWeights).length = 1 := by
  refine ⟨by norm_num, ?_⟩
  have hcomp : (mkRecommender (fun _ => [])
      [⟨none, none, none, none, none, none, none⟩,
       ⟨none, none, none, none, none, none, none⟩]).companies
      = [mkEntry ⟨none, none, none, none, none, none, none⟩,
         mkEntry ⟨none, none, none, none, none, none, none⟩] := rfl
  have hemb : (mkRecommender (fun _ => [])
      [⟨none, none, none, none, none, none, none⟩,
       ⟨none, none, none, none, none, none, none⟩]).embeddings = [[], []] := by
    simp [mkRecommender, _normalize_embeddings]
  have hsim : simVec (mkRecommender (fun _ => [])
      [⟨none, none, none, none, none, none, none⟩,
       ⟨none, none, none, none, none, none, none⟩]) [] = [0, 0] := by
    unfold simVec
    rw [hemb]
    simp [npDot]
  have hjac : jaccardVec (mkRecommender (fun _ => [])
      [⟨none, none, none, none, none, none, none⟩,
       ⟨none, none, none, none, none, none, none⟩]) [] = [0, 0] := by
    unfold jaccardVec
    rw [hcomp]
    have hj : jaccard_score (parse_skills ([] : Str))
        (parse_skills (mkEntry ⟨none, none, none, none, none, none, none⟩).SkillsRequired)
        = 0 := by decide
    simp [hj]
  have hloc : locationBonusVec none
      [mkEntry ⟨none, none, none, none, none, none, none⟩,
       mkEntry ⟨none, none, none, none, none, none, none⟩] = [0, 0] := by
    simp [locationBonusVec, List.replicate]
  have hgov : govBonusVec false
      [mkEntry ⟨none, none, none, none, none, none, none⟩,
       mkEntry ⟨none, none, none, none, none, none, none⟩] = [0, 0] := by
    simp [govBonusVec, List.replicate]
  have hfin : finalScores (mkRecommender (fun _ => [])
      [⟨none, none, none, none, none, none, none⟩,
       ⟨none, none, none, none, none, none, none⟩]) [] [] none false defaultWeights
      = [0, 0] := by
    unfold finalScores
    rw [hsim, hjac, hcomp, hloc, hgov]
    simp [weightedSum]
  have hscored : scoredTable (mkRecommender (fun _ => [])
      [⟨none, none, none, none, none, none, none⟩,
       ⟨none, none, none, none, none, none, none⟩]) [] [] none false defaultWeights
      = [(mkEntry ⟨none, none, none, none, none, none, none⟩, 0),
         (mkEntry ⟨none, none, none, none, none, none, none⟩, 0)] := by
    unfold scoredTable
    rw [hcomp, hfin]
    rfl
  have hsorted : sortScoresDesc
      [(mkEntry ⟨none, none, none, none, none, none, none⟩, (0 : ℝ)),
       (mkEntry ⟨none, none, none, none, none, none, none⟩, 0)]
      = [(mkEntry ⟨none, none, none, none, none, none, none⟩, (0 : ℝ)),
         (mkEntry ⟨none, none, none, none, none, none, none⟩, 0)] := by
    unfold sortScoresDesc
    simp [insertScored]
  show (pandasHead (sortScoresDesc (scoredTable (mkRecommender (fun _ => [])
      [⟨none, none, none, none, none, none, none⟩,
       ⟨none, none, none, none, none, none, none⟩]) [] [] none false defaultWeights)) (-1)).length
      = 1
  rw [hscored, hsorted]
  unfold pandasHead
  rw [if_neg (by norm_num)]
  simp

/-! ## Claims C9, C10 -/

theorem lookup_append (d e : List (String × String)) (k : String) :
    (d ++ e).lookup k
      = match d.lookup k with
        | some v => some v
        | none => e.lookup k := by
  induction d with
  | nil => rfl
  | cons kv d ih =>
    cases kv with
    | mk a b =>
      rw [List.cons_append]
      by_cases hab : k = a
      · subst hab
        simp [List.lookup]
      · have hb : (k == a) = false := by simp [hab]
        simp [List.lookup, hb, ih]

theorem foldl_setdefault_isSome (ks : List String) (d : List (String × String)) (k : String)
    (hk : k ∈ ks ∨ (d.lookup k).isSome) :
    ((ks.foldl (fun acc k2 => if (acc.lookup k2).isSome then acc else acc ++ [(k2, "")])
      d).lookup k).isSome := by
  induction ks generalizing d with
  | nil =>
    rcases hk with h | h
    · simp at h
    · exact h
  | cons a as ih =>
    rw [List.foldl_cons]
    apply ih
    rcases hk with h | h
    · rcases List.mem_cons.mp h with rfl | h2
      · right
        by_cases hs : (d.lookup k).isSome
        · rw [if_pos hs]; exact hs
        · rw [if_neg hs, lookup_append]
          cases hd : d.lookup k with
          | some v => rw [hd] at hs; simp at hs
          | none => simp [List.lookup]
      · left; exact h2
    · right
      by_cases hs : (d.lookup a).isSome
      · rw [if_pos hs]; exact h
      · rw [if_neg hs, lookup_append]
        cases hd : d.lookup k with
        | some v => simp [hd]
        | none => rw [hd] at h; simp at h

theorem ensureKeys_lookup_isSome (d : List (String × String)) (k : String)
    (hk : k ∈ profileKeys) : ((ensureKeys d).lookup k).isSome :=
  foldl_setdefault_isSome profileKeys d k (Or.inl hk)

theorem fallback_extract_lookup_isSome (text : String) (k : String) (hk : k ∈ profileKeys) :
    ((fallback_extract text).lookup k).isSome := by
  fin_cases hk <;> simp [fallback_extract, List.lookup]

theorem parse_core_isSome (hasClient : Bool)
    (llm : String → Except String (List (String × String))) (text : String) (k : String)
    (hk : k ∈ profileKeys) :
    ((match safe_json_from_llm hasClient llm text with
      | .ok d => d
      | .error _ => fallback_extract text).lookup k).isSome := by
  cases hres : safe_json_from_llm hasClient llm text with
  | ok d =>
    have hd : ∃ parsed, d = ensureKeys parsed := by
      unfold safe_json_from_llm at hres
      by_cases hc : hasClient
      · rw [if_neg (by simp [hc])] at hres
        cases hllm : llm (cleanWs text) with
        | ok parsed =>
          rw [hllm] at hres
          exact ⟨parsed, (Except.ok.injEq _ _).mp hres.symm⟩
        | error e => rw [hllm] at hres; simp at hres
      · rw [if_pos (by simp [hc])] at hres
        simp at hres
    rcases hd with ⟨parsed, rfl⟩
    exact ensureKeys_lookup_isSome parsed k hk
  | error e => exact fallback_extract_lookup_isSome _ k hk

/-- Claim C9: for every behavior of the PDF extractor, the utf-8 decoder, the
client configuration and the LLM, `parse_resume_with_llm` returns (it never
raises) a dictionary containing all eight profile keys: on the LLM path the
`setdefault` loop guarantees them, and otherwise the total rule-based
`fallback_extract` does. -/
theorem claim9_parse_resume_total (Bytes : Type) (pdfRead : Bytes → Except String String)
    (decodeU8 : Bytes → String) (hasClient : Bool)
    (llm : String → Except String (List (String × String))) (b : Bytes) :
    ∀ k ∈ profileKeys,
      ((parse_resume_with_llm pdfRead decodeU8 hasClient llm b).lookup k).isSome := by
  intro k hk
  exact parse_core_isSome hasClient llm
    (if stripPyStr (extract_text_from_pdf_bytes pdfRead b) = "" then decodeU8 b
     else extract_text_from_pdf_bytes pdfRead b) k hk

/-- Claim C10: when the record's email is missing or empty,
`save_student_profile` raises `ValueError` and the filesystem is unchanged
(the write happens only after the email check passes); when the email is
present and non-empty the function returns the record it was given,
unchanged. -/
theorem claim10_save_student_profile (readCsv : String → DataFrame)
    (writeCsv : DataFrame → String) (record : List (String × String)) (filepath : String)
    (fs : FS) :
    ((record.lookup ("email") = none ∨ record.lookup ("email") = some "") →
      save_student_profile readCsv writeCsv record filepath fs
        = (.error ("ValueError"), fs)) ∧
    (∀ e, record.lookup ("email") = some e → e ≠ "" →
      (save_student_profile readCsv writeCsv record filepath fs).1 = .ok record) := by
  constructor
  · rintro (h | h) <;> unfold save_student_profile <;> rw [h]
    simp
  · intro e he hne
    unfold save_student_profile
    rw [he]
    simp [hne]

/-- Witness for C10: an empty email raises and leaves the (empty) filesystem
untouched; a real email returns the record. -/
theorem claim10_witness :
    (save_student_profile (fun _ => ⟨[], []⟩) (fun _ => "") [(("email"), "")]
        ("students.csv") (fun _ => none)
      = (.error ("ValueError"), (fun _ => none : FS))) ∧
    (save_student_profile (fun _ => ⟨[], []⟩) (fun _ => "") [(("email"), ("a@b.c"))]
        ("students.csv") (fun _ => none)).1 = .ok [(("email"), ("a@b.c"))] :=
  ⟨(claim10_save_student_profile (fun _ => ⟨[], []⟩) (fun _ => "") [(("email"), "")]
      ("students.csv") (fun _ => none)).1 (Or.inr rfl),
   (claim10_save_student_profile (fun _ => ⟨[], []⟩) (fun _ => "") [(("email"), ("a@b.c"))]
      ("students.csv") (fun _ => none)).2 ("a@b.c") rfl (by decide)⟩

/-- Witness for C9 at a concrete input: failing PDF extraction, no LLM client,
empty decode; the fallback path still yields the "name" key. -/
theorem claim9_witness :
    (("name" : String) ∈ profileKeys) ∧
    ((parse_resume_with_llm (fun _ : Unit => (.error ("x") : Except String String))
        (fun _ => "") false (fun _ => (.error ("x") : Except String (List (String × String))))
        ()).lookup ("name")).isSome :=
  ⟨by decide,
   claim9_parse_resume_total Unit (fun _ => (.error ("x") : Except String String)) (fun _ => "")
     false (fun _ => (.error ("x") : Except String (List (String × String)))) () ("name")
     (by decide)⟩

end InternshipAllocator
